import Mathlib

/-!
Verification development for the coordination layer of the MIT OCW crawler
(the Frontier and Lease Coordinator of src/src/utils/distributed.py and the
resumable-discovery state of src/src/course_scrapper.py).

The Python code is shallowly embedded: the persisted JSON database becomes a
Lean structure over association lists, timestamps are integers, the
per-process string hash is an explicit function parameter, and fallible file
input or output is modelled with explicit outcome values and Except.
-/

/-- Association-list lookup, modelling a Python dict read (dict keys are
unique in Python; lookup returns the value of the first matching key). -/
def getKey {α β : Type} [DecidableEq α] (k : α) : List (α × β) → Option β
  | [] => none
  | p :: t => if p.1 = k then some p.2 else getKey k t

/-- Removal of a key, modelling a Python dict del. -/
def eraseKey {α β : Type} [DecidableEq α] (k : α) (l : List (α × β)) : List (α × β) :=
  l.filter (fun p => decide (p.1 ≠ k))

/-- Key assignment, modelling a Python dict write. -/
def setKey {α β : Type} [DecidableEq α] (k : α) (v : β) (l : List (α × β)) : List (α × β) :=
  eraseKey k l ++ [(k, v)]

/-- One in-flight claim record: the entry stored in db["in_progress_courses"]
by should_process_url, holding node_id and start_time. -/
structure ClaimInfo where
  node_id : Int
  start_time : Int
deriving DecidableEq, Repr

/-- The persisted distributed database of DistributedScraper (self.db):
last_updated, nodes (node id to last_active), processed_courses,
failed_courses, in_progress_courses. -/
structure DB where
  last_updated : Int
  nodes : List (Int × Int)
  processed_courses : List String
  failed_courses : List String
  in_progress_courses : List (String × ClaimInfo)
deriving DecidableEq, Repr

/-- _create_new_db: fresh database with the current node registered. -/
def create_new_db (node_id : Int) (now : Int) : DB :=
  { last_updated := now
    nodes := [(node_id, now)]
    processed_courses := []
    failed_courses := []
    in_progress_courses := [] }

/-- The partitioner step of should_process_url (line 168):
url_hash = hash(course_url) % self.total_nodes + 1.  The Python hash
primitive is salted per process, so it is passed here as an explicit
function parameter pyhash; Lean Int emod agrees with Python % on a
positive modulus. -/
def assign (pyhash : String → Int) (identifier : String) (totalNodes : Int) : Int :=
  pyhash identifier % totalNodes + 1

/-- The tail of should_process_url (lines 167-179): compute the owning node
from the url hash; if it is this node, record the claim and return True,
otherwise return False. -/
def claim_by_hash (node_id totalNodes : Int) (pyhash : String → Int) (now : Int)
    (db : DB) (url : String) : Bool × DB :=
  let url_hash := assign pyhash url totalNodes
  if url_hash = node_id then
    (true, { db with in_progress_courses := setKey url ⟨node_id, now⟩ db.in_progress_courses })
  else
    (false, db)

/-- should_process_url (lines 133-179).  Returns whether this node should
process the url together with the updated database.  Mirrors the source:
disabled mode always returns True; a url in processed_courses is skipped;
an in-flight url owned by this node is resumed; an in-flight claim older
than 3600 seconds is deleted and the url falls through to the hash check;
otherwise an in-flight url owned by another node is skipped.  Note the
failed_courses list is never consulted. -/
def should_process_url (enabled : Bool) (node_id totalNodes : Int)
    (pyhash : String → Int) (now : Int) (db : DB) (url : String) : Bool × DB :=
  if enabled = false then (true, db)
  else if url ∈ db.processed_courses then (false, db)
  else
    match getKey url db.in_progress_courses with
    | some info =>
        if info.node_id = node_id then (true, db)
        else if now - info.start_time > 3600 then
          claim_by_hash node_id totalNodes pyhash now
            { db with in_progress_courses := eraseKey url db.in_progress_courses } url
        else (false, db)
    | none => claim_by_hash node_id totalNodes pyhash now db url

/-- mark_as_processed (lines 181-206): remove the url from in-flight and
append it to processed_courses or failed_courses (without duplicating an
entry already present in the target list).  Note a successful completion
does not remove the url from failed_courses, nor conversely. -/
def mark_as_processed (enabled : Bool) (db : DB) (url : String) (success : Bool) : DB :=
  if enabled = false then db
  else
    let db1 := { db with in_progress_courses := eraseKey url db.in_progress_courses }
    if success then
      if url ∈ db1.processed_courses then db1
      else { db1 with processed_courses := db1.processed_courses ++ [url] }
    else
      if url ∈ db1.failed_courses then db1
      else { db1 with failed_courses := db1.failed_courses ++ [url] }

/-- The offline-node computation of _heartbeat (lines 107-112): nodes whose
last_active is below now minus twice the sync interval, read after the
record of this node has been refreshed. -/
def offline_nodes (node_id syncInterval now : Int) (db : DB) : List Int :=
  ((setKey node_id now db.nodes).filter
    (fun p => decide (p.2 < now - syncInterval * 2))).map Prod.fst

/-- _heartbeat (lines 101-131): refresh the record of this node, drop in-flight
claims owned by offline nodes or older than 3600 seconds, remove offline
node records, and stamp last_updated. -/
def heartbeat (node_id syncInterval now : Int) (db : DB) : DB :=
  let nodes1 := setKey node_id now db.nodes
  let offline := offline_nodes node_id syncInterval now db
  let in_prog := db.in_progress_courses.filter
    (fun p => decide (¬(p.2.node_id ∈ offline ∨ now - p.2.start_time > 3600)))
  let nodes2 := nodes1.filter (fun p => decide (¬ p.1 ∈ offline))
  { db with last_updated := now, nodes := nodes2, in_progress_courses := in_prog }

/-- get_subject_urls_for_node (lines 208-236): with distribution disabled or
a single node, return the whole list; otherwise keep the urls at positions
i with (i % total_nodes) + 1 equal to the id of this node, in order. -/
def get_subject_urls_for_node (enabled : Bool) (node_id totalNodes : Int)
    (all_subject_urls : List String) : List String :=
  if enabled = false ∨ totalNodes ≤ 1 then all_subject_urls
  else
    ((all_subject_urls.enum.filter
      (fun p => decide ((p.1 : Int) % totalNodes + 1 = node_id))).map Prod.snd)

/-- A discovered course record as appended to self.courses_found: the
identifier (url) plus metadata (title). -/
structure Course where
  url : String
  title : String
deriving DecidableEq, Repr

/-- The discovery-ingest step of discover_courses (lines 489-492) and
_discover_courses_with_requests (lines 238-240): each extracted course is
appended to self.courses_found.  No membership check precedes the append
and no novelty flag is produced. -/
def ingest (courses_found : List Course) (c : Course) : List Course :=
  courses_found ++ [c]

/-- Lexicographic comparison of character lists by code point, the order
Python uses on strings. -/
def charsLe : List Char → List Char → Bool
  | [], _ => true
  | _ :: _, [] => false
  | a :: as, b :: bs => if a < b then true else if b < a then false else charsLe as bs

/-- String comparison by code points. -/
def strLe (s t : String) : Bool := charsLe s.data t.data

/-- Insertion of a string into a sorted list, ascending. -/
def insertSorted (s : String) : List String → List String
  | [] => [s]
  | t :: ts => if strLe s t then s :: t :: ts else t :: insertSorted s ts

/-- Model of the Python function sorted on a list of strings. -/
def sortStrings : List String → List String
  | [] => []
  | t :: ts => insertSorted t (sortStrings ts)

/-- _generate_task_id (lines 100-109): sort the subject urls, append the
query url when one is given, join, and hash.  The md5-hexdigest-prefix
step is an opaque string-to-string function passed as fingerprint. -/
def generate_task_id (fingerprint : String → String)
    (subject_urls : List String) (query_url : Option String) : String :=
  let all_urls := sortStrings subject_urls ++
    (match query_url with | some q => [q] | none => [])
  fingerprint (String.join all_urls)

/-- The persisted discovery session written by _save_found_courses:
task_id, the url list of the run, and the discovered courses. -/
structure SavedSession where
  task_id : String
  urls : List String
  courses : List Course
deriving DecidableEq, Repr

/-- Python set equality of two string lists: set(a) == set(b). -/
def setEq (a b : List String) : Bool :=
  a.all (fun x => decide (x ∈ b)) && b.all (fun x => decide (x ∈ a))

/-- _load_found_courses (lines 370-388).  current is the courses_found list
before the call ([] at construction).  file is none when the session file
does not exist, some (Except.error m) when reading or parsing raises, and
some (Except.ok d) on a successful load.  The saved list is resumed only
when both the saved task id matches and the saved url set equals the
current url set; otherwise the list is reset to empty. -/
def load_found_courses (current : List Course) (file : Option (Except String SavedSession))
    (task_id : String) (urls_to_scrape : List String) : List Course :=
  match file with
  | none => current
  | some (Except.error _) => []
  | some (Except.ok d) =>
      if d.task_id = task_id ∧ setEq d.urls urls_to_scrape then d.courses else []

/-- Outcome of an underlying file-system write, the event that decides
whether json.dump inside _save_db raises. -/
inductive WriteOutcome where
  | ok
  | fail (msg : String)
deriving DecidableEq, Repr

/-- The raw file write of _save_db (line 67-68): on success the file holds
exactly the serialized current database; on failure an exception is
raised. -/
def json_dump_file (db : DB) (w : WriteOutcome) : Except String (Option DB) :=
  match w with
  | WriteOutcome.ok => Except.ok (some db)
  | WriteOutcome.fail m => Except.error m

/-- _save_db (lines 63-71): the raw write is wrapped in try/except; a
failure is logged and swallowed, leaving the persisted file as it was.
The Except result type records what the caller observes: an error value
would mean an exception propagating out of _save_db. -/
def save_db (db : DB) (w : WriteOutcome) (persisted : Option DB) : Except String (Option DB) :=
  match json_dump_file db w with
  | Except.ok p => Except.ok p
  | Except.error _ => Except.ok persisted

/-- _init_db (lines 38-49): a missing file or a failed load both lead to
_create_new_db; only a successful load adopts the content of the file.  An
error value would mean an exception propagating out of _init_db. -/
def init_db (node_id now : Int) (file : Option (Except String DB)) : Except String DB :=
  match file with
  | none => Except.ok (create_new_db node_id now)
  | some (Except.ok db) => Except.ok db
  | some (Except.error _) => Except.ok (create_new_db node_id now)

/-- mark_as_processed followed by its trailing _save_db call (line 206),
with the persisted file threaded through. -/
def mark_and_save (enabled : Bool) (db : DB) (url : String) (success : Bool)
    (w : WriteOutcome) (persisted : Option DB) : Except String (DB × Option DB) :=
  if enabled = false then Except.ok (db, persisted)
  else
    let db1 := mark_as_processed enabled db url success
    match save_db db1 w persisted with
    | Except.ok p => Except.ok (db1, p)
    | Except.error m => Except.error m

/-- The mutation steps of the coordinator over the persisted frontier
state: claim (should_process_url), complete (mark_as_processed) and the
heartbeat sweep, starting from _create_new_db.  Discovery ingest does not
touch this database.  Each step may be taken by any node with any
configuration and any process hash function. -/
inductive Reach : DB → Prop where
  | init (node_id now : Int) : Reach (create_new_db node_id now)
  | claim {db : DB} (h : Reach db) (enabled : Bool) (node_id totalNodes : Int)
      (pyhash : String → Int) (now : Int) (url : String) :
      Reach (should_process_url enabled node_id totalNodes pyhash now db url).2
  | complete {db : DB} (h : Reach db) (enabled : Bool) (url : String) (success : Bool) :
      Reach (mark_as_processed enabled db url success)
  | sweep {db : DB} (h : Reach db) (node_id syncInterval now : Int) :
      Reach (heartbeat node_id syncInterval now db)

lemma mem_keys_of_getKey_some {α β : Type} [DecidableEq α] {k : α} {v : β}
    {l : List (α × β)} (h : getKey k l = some v) : k ∈ l.map Prod.fst := by
  induction l with
  | nil => simp [getKey] at h
  | cons p t ih =>
      by_cases hp : p.1 = k
      · simp [hp]
      · simp [getKey, hp] at h
        simp [ih h]

lemma not_mem_keys_eraseKey {α β : Type} [DecidableEq α] (k : α) (l : List (α × β)) :
    ¬ k ∈ (eraseKey k l).map Prod.fst := by
  intro h
  rcases List.mem_map.mp h with ⟨p, hp, hk⟩
  rcases List.mem_filter.mp hp with ⟨_, hcond⟩
  exact (of_decide_eq_true hcond) hk

lemma mem_keys_of_eraseKey {α β : Type} [DecidableEq α] {u k : α} {l : List (α × β)}
    (h : u ∈ (eraseKey k l).map Prod.fst) : u ∈ l.map Prod.fst := by
  rcases List.mem_map.mp h with ⟨p, hp, hk⟩
  exact List.mem_map.mpr ⟨p, (List.mem_filter.mp hp).1, hk⟩

lemma mem_keys_of_setKey {α β : Type} [DecidableEq α] {u k : α} {v : β} {l : List (α × β)}
    (h : u ∈ (setKey k v l).map Prod.fst) : u = k ∨ u ∈ l.map Prod.fst := by
  unfold setKey at h
  rw [List.map_append] at h
  rcases List.mem_append.mp h with h1 | h2
  · exact Or.inr (mem_keys_of_eraseKey h1)
  · simp at h2
    exact Or.inl h2

/-- The part of the frontier-store exclusivity invariant that the code
maintains: no identifier is simultaneously in processed_courses and in
the in-flight map. -/
def FrontierInv (db : DB) : Prop :=
  ∀ u, u ∈ db.processed_courses → ¬ u ∈ db.in_progress_courses.map Prod.fst

lemma inv_create_new_db (node_id now : Int) : FrontierInv (create_new_db node_id now) := by
  intro u _ h
  simp [create_new_db] at h

lemma inv_claim_by_hash {db : DB} {url : String} (node_id totalNodes : Int)
    (pyhash : String → Int) (now : Int)
    (hInv : FrontierInv db) (hnp : ¬ url ∈ db.processed_courses) :
    FrontierInv (claim_by_hash node_id totalNodes pyhash now db url).2 := by
  unfold claim_by_hash
  dsimp only
  split
  · intro u hu hmem
    rcases mem_keys_of_setKey hmem with rfl | h2
    · exact hnp hu
    · exact hInv u hu h2
  · exact hInv

lemma inv_should_process_url {db : DB} (enabled : Bool) (node_id totalNodes : Int)
    (pyhash : String → Int) (now : Int) (url : String) (hInv : FrontierInv db) :
    FrontierInv (should_process_url enabled node_id totalNodes pyhash now db url).2 := by
  unfold should_process_url
  split
  · exact hInv
  · split
    · exact hInv
    · rename_i hnp
      split
      · split
        · exact hInv
        · split
          · refine inv_claim_by_hash node_id totalNodes pyhash now ?_ ?_
            · intro u hu hmem
              exact hInv u hu (mem_keys_of_eraseKey hmem)
            · exact hnp
          · exact hInv
      · exact inv_claim_by_hash node_id totalNodes pyhash now hInv hnp

lemma inv_mark_as_processed {db : DB} (enabled : Bool) (url : String) (success : Bool)
    (hInv : FrontierInv db) : FrontierInv (mark_as_processed enabled db url success) := by
  unfold mark_as_processed
  have hshrink : ∀ u, u ∈ db.processed_courses →
      ¬ u ∈ (eraseKey url db.in_progress_courses).map Prod.fst := by
    intro u hu hmem
    exact hInv u hu (mem_keys_of_eraseKey hmem)
  split
  · exact hInv
  · dsimp only
    split
    · split
      · exact hshrink
      · intro u hu hmem
        simp only at hu hmem
        rcases List.mem_append.mp hu with h1 | h2
        · exact hshrink u h1 hmem
        · simp at h2
          subst h2
          exact not_mem_keys_eraseKey u db.in_progress_courses hmem
    · split
      · exact hshrink
      · exact hshrink

lemma inv_heartbeat {db : DB} (node_id syncInterval now : Int) (hInv : FrontierInv db) :
    FrontierInv (heartbeat node_id syncInterval now db) := by
  unfold heartbeat
  intro u hu hmem
  simp only at hu hmem
  rcases List.mem_map.mp hmem with ⟨p, hp, hk⟩
  exact hInv u hu (List.mem_map.mpr ⟨p, (List.mem_filter.mp hp).1, hk⟩)

/-- Every database reachable through the operations of the coordinator keeps
processed_courses and the in-flight map disjoint. -/
lemma reach_inv {db : DB} (h : Reach db) : FrontierInv db := by
  induction h with
  | init node_id now => exact inv_create_new_db node_id now
  | claim _ enabled node_id totalNodes pyhash now url ih =>
      exact inv_should_process_url enabled node_id totalNodes pyhash now url ih
  | complete _ enabled url success ih => exact inv_mark_as_processed enabled url success ih
  | sweep _ node_id syncInterval now ih => exact inv_heartbeat node_id syncInterval now ih

lemma processed_mark_self (db : DB) (url : String) :
    url ∈ (mark_as_processed true db url true).processed_courses := by
  by_cases h : url ∈ db.processed_courses <;> simp [mark_as_processed, h]

lemma processed_mark_mono (enabled success : Bool) (db : DB) (u url : String)
    (h : u ∈ db.processed_courses) :
    u ∈ (mark_as_processed enabled db url success).processed_courses := by
  unfold mark_as_processed
  split
  · exact h
  · dsimp only
    split
    · split
      · exact h
      · exact List.mem_append.mpr (Or.inl h)
    · split
      · exact h
      · exact h

/-- C1: the partitioner of should_process_url (line 168) is built on the
Python hash primitive, which is salted per process for strings.  With two
different process hash functions the same identifier and the same node
count are assigned to different nodes, so the assignment is not a pure
function of the identifier and the node count alone: the spec requirement
(a fixed, non-randomized hash) is right and the code is a slip, as the
design notes of the spec themselves record. -/
theorem assign_depends_on_process_hash :
    assign (fun _ => 0) "https://ocw.mit.edu/courses/18-01" 2 = 1 ∧
    assign (fun _ => 1) "https://ocw.mit.edu/courses/18-01" 2 = 2 ∧
    (∀ pyhash : String → Int, ∀ url : String,
      1 ≤ assign pyhash url 2 ∧ assign pyhash url 2 ≤ 2) := by
  refine ⟨by decide, by decide, fun pyhash url => ?_⟩
  have h1 : 0 ≤ pyhash url % 2 := Int.emod_nonneg _ (by decide)
  have h2 : pyhash url % 2 < 2 := Int.emod_lt_of_pos _ (by decide)
  unfold assign
  omega

/-- C7 counterexample: ingesting the same course record twice appends it
twice; the known-item count rises by 2, not by 1, and the second ingest is
not a no-op. -/
theorem ingest_no_dedup_counterexample :
    ingest (ingest [] ⟨"u1", "t1"⟩) ⟨"u1", "t1"⟩ = [⟨"u1", "t1"⟩, ⟨"u1", "t1"⟩] ∧
    (ingest (ingest [] ⟨"u1", "t1"⟩) ⟨"u1", "t1"⟩).length = 2 := by
  constructor <;> rfl

/-- C7 amended: discovery ingest appends every discovered item
unconditionally, with no deduplication by identifier and no novelty flag,
so ingesting an identifier k times grows the known-item list by k. -/
theorem ingest_appends_unconditionally :
    ∀ (cs : List Course) (c : Course),
      ingest cs c = cs ++ [c] ∧
      (ingest cs c).length = cs.length + 1 ∧
      (ingest (ingest cs c) c).length = cs.length + 2 := by
  intro cs c
  refine ⟨rfl, by simp [ingest], by simp [ingest]⟩

/-- C8 counterexample: the fingerprint is the hash of the concatenation of
the sorted urls, so the distinct source sets of a persisted session,
here the url lists a,bc and ab,c, can share a fingerprint; the load then
discards the persisted list even though the fingerprint matches, because
the url sets differ. -/
theorem session_fingerprint_counterexample :
    generate_task_id (fun s => s) ["a", "bc"] none
      = generate_task_id (fun s => s) ["ab", "c"] none ∧
    load_found_courses []
      (some (Except.ok ⟨generate_task_id (fun s => s) ["a", "bc"] none, ["a", "bc"],
        [⟨"u", "t"⟩]⟩))
      (generate_task_id (fun s => s) ["ab", "c"] none) ["ab", "c"] = [] := by
  constructor
  · rfl
  · decide

/-- C8 amended: a persisted discovery session is resumed exactly when both
the persisted task id equals the fingerprint of the current run and the
persisted url set equals the current url set; on any mismatch, and on a
read or parse failure, the previously discovered item list is discarded
and discovery restarts from the empty list; a missing session file leaves
the current (initially empty) list in place. -/
theorem session_resume_spec :
    ∀ (d : SavedSession) (current : List Course) (task_id : String) (urls : List String),
      (d.task_id = task_id ∧ setEq d.urls urls →
        load_found_courses current (some (Except.ok d)) task_id urls = d.courses) ∧
      (¬(d.task_id = task_id ∧ setEq d.urls urls) →
        load_found_courses current (some (Except.ok d)) task_id urls = []) ∧
      load_found_courses current none task_id urls = current ∧
      (∀ m, load_found_courses current (some (Except.error m)) task_id urls = []) := by
  intro d current task_id urls
  refine ⟨fun h => ?_, fun h => ?_, rfl, fun m => rfl⟩
  · simp only [load_found_courses]
    rw [if_pos h]
  · simp only [load_found_courses]
    rw [if_neg h]

/-- C8 witness: a matching session is resumed. -/
theorem session_resume_spec_witness :
    load_found_courses [] (some (Except.ok ⟨"t", ["a"], [⟨"u", "x"⟩]⟩)) "t" ["a"]
      = [⟨"u", "x"⟩] :=
  (session_resume_spec ⟨"t", ["a"], [⟨"u", "x"⟩]⟩ [] "t" ["a"]).1 ⟨rfl, by decide⟩

/-- C9: store read and write failures are caught at the coordinator
boundary: _save_db swallows a failed write and leaves the persisted file
as it was, _init_db turns a failed load into a fresh database, neither
ever returns an error, every mark-and-save cycle completes for every
write outcome, and because each save rewrites the whole in-memory
database, a transition lost to a failed write is persisted by the next
successful mutation. -/
theorem store_io_failures_nonfatal :
    ∀ (db : DB) (m : String) (persisted : Option DB) (node_id now : Int) (url url2 : String),
      save_db db (WriteOutcome.fail m) persisted = Except.ok persisted ∧
      save_db db WriteOutcome.ok persisted = Except.ok (some db) ∧
      init_db node_id now (some (Except.error m)) = Except.ok (create_new_db node_id now) ∧
      (∀ w, ∃ r, mark_and_save true db url true w persisted = Except.ok r) ∧
      (url ∈ (mark_as_processed true (mark_as_processed true db url true) url2 true).processed_courses ∧
        mark_and_save true (mark_as_processed true db url true) url2 true WriteOutcome.ok persisted
          = Except.ok (mark_as_processed true (mark_as_processed true db url true) url2 true,
              some (mark_as_processed true (mark_as_processed true db url true) url2 true))) := by
  intro db m persisted node_id now url url2
  refine ⟨rfl, rfl, rfl, fun w => ?_, ?_, rfl⟩
  · cases w with
    | ok => exact ⟨_, rfl⟩
    | fail m2 => exact ⟨_, rfl⟩
  · exact processed_mark_mono true true _ url url2 (processed_mark_self db url)

/-- C2 counterexample: from the fresh database, report url u as failed,
then let the hash-owning node claim it: the resulting state is reachable
and holds u in failed_courses and in the in-flight map at once, because
should_process_url never consults failed_courses. -/
theorem exclusivity_counterexample :
    Reach (should_process_url true 1 1 (fun _ => 0) 10
      (mark_as_processed true (create_new_db 1 0) "u" false) "u").2 ∧
    "u" ∈ ((should_process_url true 1 1 (fun _ => 0) 10
      (mark_as_processed true (create_new_db 1 0) "u" false) "u").2).failed_courses ∧
    "u" ∈ ((should_process_url true 1 1 (fun _ => 0) 10
      (mark_as_processed true (create_new_db 1 0) "u" false) "u").2).in_progress_courses.map Prod.fst :=
  ⟨Reach.claim (Reach.complete (Reach.init 1 0) true "u" false) true 1 1 (fun _ => 0) 10 "u",
    by decide, by decide⟩

/-- C2 amended: at every reachable state of the frontier store, each
identifier appears in at most one of the completed set and the in-flight
map, and this exclusivity is preserved by claim, complete and the
heartbeat sweep (ingest does not touch the store); exclusivity with the
failed set is not maintained. -/
theorem completed_inflight_exclusive :
    ∀ db : DB, Reach db →
      ∀ u, u ∈ db.processed_courses → ¬ u ∈ db.in_progress_courses.map Prod.fst :=
  fun _ h => reach_inv h

/-- C2 witness: exclusivity evaluated on a concrete reachable state. -/
theorem completed_inflight_exclusive_witness :
    ¬ "a" ∈ (mark_as_processed true (create_new_db 1 0) "a" true).in_progress_courses.map Prod.fst :=
  completed_inflight_exclusive _ (Reach.complete (Reach.init 1 0) true "a" true) "a" (by decide)

/-- C3 counterexample: url v is in failed_courses of a reachable state,
yet a claim by the hash-owning node succeeds and acquires it, because
should_process_url checks processed_courses only. -/
theorem claim_on_failed_counterexample :
    Reach (mark_as_processed true (create_new_db 1 0) "v" false) ∧
    "v" ∈ (mark_as_processed true (create_new_db 1 0) "v" false).failed_courses ∧
    (should_process_url true 1 1 (fun _ => 0) 5
      (mark_as_processed true (create_new_db 1 0) "v" false) "v").1 = true ∧
    getKey "v" ((should_process_url true 1 1 (fun _ => 0) 5
      (mark_as_processed true (create_new_db 1 0) "v" false) "v").2).in_progress_courses
      = some ⟨1, 5⟩ :=
  ⟨Reach.complete (Reach.init 1 0) true "v" false, by decide, by decide, by decide⟩

/-- C3 amended: only the completed set is terminal for claiming: for every
identifier in processed_courses, a claim by any node returns false and
leaves the state unchanged; in particular after a successful completion
every subsequent claim of that identifier by any node returns false.
Identifiers that are only in failed_courses are not protected. -/
theorem claim_after_complete_terminal :
    ∀ (node_id totalNodes : Int) (pyhash : String → Int) (now : Int) (db : DB) (url : String),
      (url ∈ db.processed_courses →
        should_process_url true node_id totalNodes pyhash now db url = (false, db)) ∧
      should_process_url true node_id totalNodes pyhash now
        (mark_as_processed true db url true) url
        = (false, mark_as_processed true db url true) := by
  intro node_id totalNodes pyhash now db url
  have hmain : ∀ d : DB, url ∈ d.processed_courses →
      should_process_url true node_id totalNodes pyhash now d url = (false, d) := by
    intro d h
    unfold should_process_url
    rw [if_neg (by decide), if_pos h]
  exact ⟨hmain db, hmain _ (processed_mark_self db url)⟩

/-- C3 witness: a completed identifier is refused on re-claim. -/
theorem claim_after_complete_terminal_witness :
    should_process_url true 2 3 (fun _ => 0) 50
      (mark_as_processed true (create_new_db 1 0) "x" true) "x"
      = (false, mark_as_processed true (create_new_db 1 0) "x" true) :=
  (claim_after_complete_terminal 2 3 (fun _ => 0) 50
    (mark_as_processed true (create_new_db 1 0) "x" true) "x").1 (by decide)

/-- C4 counterexample: node 2 holds a stale claim on u (age 4000 over the
3600 second lease) in a reachable state; node 1 then calls claim, the
stale record is removed, but node 1 does not acquire u because the hash
assigns u to node 2: the call returns false and u reverts to pending
instead of transferring ownership to the caller. -/
theorem stale_claim_counterexample :
    Reach (should_process_url true 2 2 (fun _ => 1) 0 (create_new_db 2 0) "u").2 ∧
    getKey "u" ((should_process_url true 2 2 (fun _ => 1) 0
      (create_new_db 2 0) "u").2).in_progress_courses = some ⟨2, 0⟩ ∧
    ((4000 : Int) - 0 > 3600) ∧
    (should_process_url true 1 2 (fun _ => 1) 4000
      (should_process_url true 2 2 (fun _ => 1) 0 (create_new_db 2 0) "u").2 "u").1 = false ∧
    getKey "u" ((should_process_url true 1 2 (fun _ => 1) 4000
      (should_process_url true 2 2 (fun _ => 1) 0
        (create_new_db 2 0) "u").2 "u").2).in_progress_courses = none :=
  ⟨Reach.claim (Reach.init 2 0) true 2 2 (fun _ => 1) 0 "u",
    by decide, by decide, by decide, by decide⟩

/-- C4 amended: when an in-flight claim held by another node has exceeded
the 3600 second lease, a new claim call deletes the stale record and then
succeeds, with ownership transferred to the caller and the timestamp
reset, exactly when the hash partitioner assigns the identifier to the
calling node; otherwise the call returns false and the identifier is left
pending (no longer in flight). -/
theorem stale_claim_spec :
    ∀ (node_id totalNodes : Int) (pyhash : String → Int) (now : Int)
      (db : DB) (url : String) (info : ClaimInfo),
      ¬ url ∈ db.processed_courses →
      getKey url db.in_progress_courses = some info →
      info.node_id ≠ node_id →
      now - info.start_time > 3600 →
      (assign pyhash url totalNodes = node_id →
        should_process_url true node_id totalNodes pyhash now db url
          = (true,
             { db with
               in_progress_courses := setKey url ⟨node_id, now⟩ (eraseKey url db.in_progress_courses) })) ∧
      (assign pyhash url totalNodes ≠ node_id →
        should_process_url true node_id totalNodes pyhash now db url
          = (false, { db with in_progress_courses := eraseKey url db.in_progress_courses })) := by
  intro node_id totalNodes pyhash now db url info h1 h2 h3 h4
  have hbase : should_process_url true node_id totalNodes pyhash now db url
      = claim_by_hash node_id totalNodes pyhash now
        { db with in_progress_courses := eraseKey url db.in_progress_courses } url := by
    unfold should_process_url
    rw [if_neg (by decide), if_neg h1, h2]
    dsimp only
    rw [if_neg h3, if_pos h4]
  constructor
  · intro hh
    rw [hbase]
    unfold claim_by_hash
    dsimp only
    rw [if_pos hh]
  · intro hh
    rw [hbase]
    unfold claim_by_hash
    dsimp only
    rw [if_neg hh]

/-- C4 witness: a stale claim of node 1 is taken over by node 3 when the
hash assigns the identifier to node 3. -/
theorem stale_claim_spec_witness :
    should_process_url true 3 3 (fun _ => 5) 4000
      ⟨0, [(1, 0)], [], [], [("u", ⟨1, 0⟩)]⟩ "u"
      = (true,
         { (⟨0, [(1, 0)], [], [], [("u", ⟨1, 0⟩)]⟩ : DB) with
           in_progress_courses := setKey "u" ⟨3, 4000⟩ (eraseKey "u" [("u", ⟨1, 0⟩)]) }) :=
  (stale_claim_spec 3 3 (fun _ => 5) 4000 ⟨0, [(1, 0)], [], [], [("u", ⟨1, 0⟩)]⟩ "u" ⟨1, 0⟩
    (by decide) (by decide) (by decide) (by decide)).1 (by decide)

/-- C5: in any reachable state, a claim call by the node that already owns
the in-flight record returns true and leaves the database unchanged, so
the item stays claimed by that node with its original timestamp. -/
theorem idempotent_same_node_reclaim :
    ∀ (node_id totalNodes : Int) (pyhash : String → Int) (now : Int)
      (db : DB) (url : String) (info : ClaimInfo),
      Reach db →
      getKey url db.in_progress_courses = some info →
      info.node_id = node_id →
      should_process_url true node_id totalNodes pyhash now db url = (true, db) ∧
      getKey url ((should_process_url true node_id totalNodes pyhash now db url).2).in_progress_courses
        = some info := by
  intro node_id totalNodes pyhash now db url info hreach h2 h3
  have hnp : ¬ url ∈ db.processed_courses := by
    intro hmem
    exact reach_inv hreach url hmem (mem_keys_of_getKey_some h2)
  have hmain : should_process_url true node_id totalNodes pyhash now db url = (true, db) := by
    unfold should_process_url
    rw [if_neg (by decide), if_neg hnp, h2]
    dsimp only
    rw [if_pos h3]
  exact ⟨hmain, by rw [hmain]; exact h2⟩

/-- C5 witness: node 1 re-claims its own in-flight item. -/
theorem idempotent_same_node_reclaim_witness :
    should_process_url true 1 3 (fun _ => 0) 100
      (should_process_url true 1 3 (fun _ => 0) 7 (create_new_db 1 0) "w").2 "w"
      = (true, (should_process_url true 1 3 (fun _ => 0) 7 (create_new_db 1 0) "w").2) :=
  (idempotent_same_node_reclaim 1 3 (fun _ => 0) 100
    (should_process_url true 1 3 (fun _ => 0) 7 (create_new_db 1 0) "w").2 "w" ⟨1, 7⟩
    (Reach.claim (Reach.init 1 0) true 1 3 (fun _ => 0) 7 "w")
    (by decide) (by decide)).1

lemma mem_setKey_of_ne {α β : Type} [DecidableEq α] {k u : α} {t : β} {v : β}
    {l : List (α × β)} (h : (u, t) ∈ l) (hne : u ≠ k) : (u, t) ∈ setKey k v l := by
  unfold setKey
  exact List.mem_append.mpr (Or.inl (List.mem_filter.mpr ⟨h, decide_eq_true hne⟩))

lemma mem_setKey_self {α β : Type} [DecidableEq α] (k : α) (v : β) (l : List (α × β)) :
    (k, v) ∈ setKey k v l := by
  unfold setKey
  exact List.mem_append.mpr (Or.inr (by simp))

lemma snd_eq_of_mem_setKey_self {α β : Type} [DecidableEq α] {k : α} {t v : β}
    {l : List (α × β)} (h : (k, t) ∈ setKey k v l) : t = v := by
  rcases List.mem_append.mp h with h1 | h2
  · exact absurd rfl (of_decide_eq_true (List.mem_filter.mp h1).2)
  · simp at h2
    exact h2

lemma mem_offline_nodes {node_id syncInterval now : Int} {db : DB} {n : Int} :
    n ∈ offline_nodes node_id syncInterval now db ↔
      ∃ t, (n, t) ∈ setKey node_id now db.nodes ∧ t < now - syncInterval * 2 := by
  unfold offline_nodes
  constructor
  · intro h
    rcases List.mem_map.mp h with ⟨p, hp, rfl⟩
    rcases List.mem_filter.mp hp with ⟨h1, h2⟩
    exact ⟨p.2, h1, of_decide_eq_true h2⟩
  · intro h
    rcases h with ⟨t, h1, h2⟩
    exact List.mem_map.mpr ⟨(n, t), List.mem_filter.mpr ⟨h1, decide_eq_true h2⟩, rfl⟩

/-- C6: one heartbeat cycle (with a nonnegative sync interval) removes every
node record, other than the record of the running node which is refreshed
to now, whose last_active lies more than twice the sync interval in the
past; it drops every in-flight claim owned by such a dead node and every
in-flight claim older than 3600 seconds regardless of its owner, and it
keeps every other in-flight claim. -/
theorem heartbeat_sweep_spec :
    ∀ (node_id syncInterval now : Int) (db : DB), 0 ≤ syncInterval →
      (∀ n t, (n, t) ∈ db.nodes → n ≠ node_id → t < now - syncInterval * 2 →
        ¬ n ∈ (heartbeat node_id syncInterval now db).nodes.map Prod.fst) ∧
      ((node_id, now) ∈ (heartbeat node_id syncInterval now db).nodes) ∧
      (∀ url info, (url, info) ∈ db.in_progress_courses →
        ((info.node_id ≠ node_id ∧
            ∃ t, (info.node_id, t) ∈ db.nodes ∧ t < now - syncInterval * 2) ∨
          now - info.start_time > 3600) →
        ¬ (url, info) ∈ (heartbeat node_id syncInterval now db).in_progress_courses) ∧
      (∀ url info, (url, info) ∈ db.in_progress_courses →
        (∀ t, (info.node_id, t) ∈ setKey node_id now db.nodes → ¬ t < now - syncInterval * 2) →
        ¬ (now - info.start_time > 3600) →
        (url, info) ∈ (heartbeat node_id syncInterval now db).in_progress_courses) := by
  intro node_id syncInterval now db hI
  unfold heartbeat
  dsimp only
  refine ⟨?_, ?_, ?_, ?_⟩
  · intro n t hmem hne hlt hbad
    rcases List.mem_map.mp hbad with ⟨p, hp, rfl⟩
    rcases List.mem_filter.mp hp with ⟨_, hcond⟩
    exact (of_decide_eq_true hcond)
      (mem_offline_nodes.mpr ⟨t, mem_setKey_of_ne hmem hne, hlt⟩)
  · refine List.mem_filter.mpr ⟨mem_setKey_self node_id now db.nodes, decide_eq_true ?_⟩
    intro hoff
    rcases mem_offline_nodes.mp hoff with ⟨t, hmem, hlt⟩
    have ht : t = now := snd_eq_of_mem_setKey_self hmem
    omega
  · intro url info hmem hcond hbad
    rcases List.mem_filter.mp hbad with ⟨_, hkeep⟩
    refine (of_decide_eq_true hkeep) ?_
    rcases hcond with ⟨hne, t, hmem2, hlt⟩ | hstale
    · exact Or.inl (mem_offline_nodes.mpr ⟨t, mem_setKey_of_ne hmem2 hne, hlt⟩)
    · exact Or.inr hstale
  · intro url info hmem hlive hfresh
    refine List.mem_filter.mpr ⟨hmem, decide_eq_true ?_⟩
    rintro (hoff | hstale)
    · rcases mem_offline_nodes.mp hoff with ⟨t, hmem2, hlt⟩
      exact hlive t hmem2 hlt
    · exact hfresh hstale

/-- C6 witness: the scenario of the spec, heartbeat interval 300, node 2
last heard from at time 0, swept at time 601: its node record disappears
and its in-flight item is released, while the running node is refreshed. -/
theorem heartbeat_sweep_spec_witness :
    ¬ (2 : Int) ∈ (heartbeat 1 300 601
      ⟨0, [(1, 0), (2, 0)], [], [], [("u", ⟨2, 0⟩)]⟩).nodes.map Prod.fst ∧
    ((1 : Int), (601 : Int)) ∈ (heartbeat 1 300 601
      ⟨0, [(1, 0), (2, 0)], [], [], [("u", ⟨2, 0⟩)]⟩).nodes ∧
    ¬ ("u", (⟨2, 0⟩ : ClaimInfo)) ∈ (heartbeat 1 300 601
      ⟨0, [(1, 0), (2, 0)], [], [], [("u", ⟨2, 0⟩)]⟩).in_progress_courses :=
  ⟨(heartbeat_sweep_spec 1 300 601 ⟨0, [(1, 0), (2, 0)], [], [], [("u", ⟨2, 0⟩)]⟩
      (by decide)).1 2 0 (by decide) (by decide) (by decide),
   (heartbeat_sweep_spec 1 300 601 ⟨0, [(1, 0), (2, 0)], [], [], [("u", ⟨2, 0⟩)]⟩
      (by decide)).2.1,
   (heartbeat_sweep_spec 1 300 601 ⟨0, [(1, 0), (2, 0)], [], [], [("u", ⟨2, 0⟩)]⟩
      (by decide)).2.2.1 "u" ⟨2, 0⟩ (by decide)
      (Or.inl ⟨by decide, 0, by decide, by decide⟩)⟩

lemma length_filter_partition {α : Type} (l : List α) (f : α → Nat) (N : Nat)
    (h : ∀ a ∈ l, f a < N) :
    ∑ k ∈ Finset.range N, (l.filter (fun a => decide (f a = k))).length = l.length := by
  induction l with
  | nil => simp
  | cons a t ih =>
      have ha : f a < N := h a (by simp)
      have ht : ∀ b ∈ t, f b < N := fun b hb => h b (List.mem_cons_of_mem a hb)
      have hstep : ∀ k, ((a :: t).filter (fun x => decide (f x = k))).length
          = (if f a = k then 1 else 0) + (t.filter (fun x => decide (f x = k))).length := by
        intro k
        by_cases hk : f a = k
        · simp [List.filter_cons, hk]
          omega
        · simp [List.filter_cons, hk]
      rw [Finset.sum_congr rfl (fun k _ => hstep k), Finset.sum_add_distrib, ih ht]
      have hone : ∑ k ∈ Finset.range N, (if f a = k then 1 else 0) = 1 := by
        rw [Finset.sum_ite_eq]
        simp [Finset.mem_range.mpr ha]
      rw [hone]
      simp [Nat.add_comm]

/-- C10: get_subject_urls_for_node partitions by position: with
distribution disabled or a single node the input list is returned
unchanged; with N at least 2 and a node id i in [1, N], node i receives
exactly the urls at positions p with p mod N equal to i - 1, in their
original order; and the lengths of the per-node lists over node ids 1..N
sum to the length of the input, so every url goes to exactly one node. -/
theorem subject_url_partition :
    ∀ (enabled : Bool) (node_id totalNodes : Int) (urls : List String),
      (get_subject_urls_for_node false node_id totalNodes urls = urls) ∧
      (totalNodes ≤ 1 → get_subject_urls_for_node enabled node_id totalNodes urls = urls) ∧
      (2 ≤ totalNodes → 1 ≤ node_id → node_id ≤ totalNodes →
        get_subject_urls_for_node true node_id totalNodes urls
          = (urls.enum.filter
              (fun p => decide ((p.1 : Int) % totalNodes = node_id - 1))).map Prod.snd) ∧
      (2 ≤ totalNodes →
        ∑ k ∈ Finset.range totalNodes.toNat,
          (get_subject_urls_for_node true ((k : Int) + 1) totalNodes urls).length
          = urls.length) := by
  intro enabled node_id totalNodes urls
  refine ⟨?_, ?_, ?_, ?_⟩
  · unfold get_subject_urls_for_node
    rw [if_pos (Or.inl rfl)]
  · intro h
    unfold get_subject_urls_for_node
    rw [if_pos (Or.inr h)]
  · intro hN h1 h2
    unfold get_subject_urls_for_node
    rw [if_neg (by simp; omega)]
    congr 1
    apply List.filter_congr
    intro p _
    apply decide_eq_decide.mpr
    omega
  · intro hN
    have hNpos : ((totalNodes.toNat : Nat) : Int) = totalNodes := Int.toNat_of_nonneg (by omega)
    have hstep : ∀ k ∈ Finset.range totalNodes.toNat,
        (get_subject_urls_for_node true ((k : Int) + 1) totalNodes urls).length
          = (urls.enum.filter (fun p => decide (p.1 % totalNodes.toNat = k))).length := by
      intro k _
      unfold get_subject_urls_for_node
      rw [if_neg (by simp; omega)]
      rw [List.length_map]
      congr 1
      apply List.filter_congr
      intro p _
      apply decide_eq_decide.mpr
      have hmod : ((p.1 % totalNodes.toNat : Nat) : Int) = (p.1 : Int) % totalNodes := by
        rw [Int.natCast_mod, hNpos]
      omega
    rw [Finset.sum_congr rfl hstep]
    rw [length_filter_partition urls.enum (fun p => p.1 % totalNodes.toNat) totalNodes.toNat
      (fun p _ => Nat.mod_lt _ (by omega))]
    exact List.enum_length

/-- C10 witness: a three-url list under two nodes; node 1 receives the
positions congruent to 0 and the two per-node lists cover all three. -/
theorem subject_url_partition_witness :
    get_subject_urls_for_node true 1 2 ["a", "b", "c"]
      = ((["a", "b", "c"].enum.filter
          (fun p => decide ((p.1 : Int) % 2 = 1 - 1))).map Prod.snd) ∧
    ∑ k ∈ Finset.range (2 : Int).toNat,
      (get_subject_urls_for_node true ((k : Int) + 1) 2 ["a", "b", "c"]).length = 3 :=
  ⟨(subject_url_partition true 1 2 ["a", "b", "c"]).2.2.1 (by decide) (by decide) (by decide),
   (subject_url_partition true 1 2 ["a", "b", "c"]).2.2.2 (by decide)⟩
